import Mathlib

/-!
Verification of the CostcoPriceApp extraction-and-diff pipeline.

This file gives a shallow embedding of the core logic of
`costcowest_scraper.py` and `price_diff_notifier.py` and proves the spec
claims about it.

Embedding conventions:
* Python floats are modelled as exact rationals (`ℚ`); `round(x, n)` is
  modelled as decimal rounding half-to-even (Python's rounding mode) at
  `n` decimal digits, computed exactly.
* Python exceptions are modelled by the `PyResult` type; a `try/except
  ValueError` block is visible in the embedded definition as a match on
  the `raised "ValueError"` constructor.
* Python strings are Lean `String`s; `str.isdigit`, `str.lower`,
  `str.strip` are modelled at ASCII granularity, which covers every
  string the pipeline manipulates.
* Regular-expression matching (`PRICE_RE`, the instant-savings pattern,
  and `\d+\.\d{2}`) is implemented directly.  For each of these patterns
  every sub-pattern following a mandatory piece is optional, so Python's
  backtracking search coincides with greedy maximal-munch scanning,
  which is what the definitions below implement.
* The DOM layer (BeautifulSoup) is out of scope per the spec; a text
  node is modelled as the data the scraper reads off the DOM: its own
  text, the `alt` of the nearest preceding image (when the node has a
  parent and such an image with an `alt` attribute exists), the parent's
  joined text, and the previous sibling's text.
-/

namespace Costco

/-! ## Python string primitives -/

/-- Python whitespace for `str.strip()` / `\s` (ASCII range). -/
def isPySpace (c : Char) : Bool :=
  c = ' ' ∨ c = '\t' ∨ c = '\n' ∨ c = '\r' ∨ c = '\x0b' ∨ c = '\x0c'

/-- Collapse every run of whitespace to a single space
(`re.sub(r"\s+", " ", t)`).  The flag records whether the previous
character was part of a whitespace run. -/
def squeezeWs : Bool → List Char → List Char
  | _, [] => []
  | prev, c :: cs =>
    if isPySpace c then
      if prev then squeezeWs true cs else ' ' :: squeezeWs true cs
    else c :: squeezeWs false cs

/-- Python `str.strip()` on a character list. -/
def pyStripL (l : List Char) : List Char :=
  ((l.dropWhile isPySpace).reverse.dropWhile isPySpace).reverse

/-- `clean_text`: `re.sub(r"\s+", " ", t or "").strip()`. -/
def cleanTextL (l : List Char) : List Char :=
  pyStripL (squeezeWs false l)

/-- `clean_text` on strings. -/
def clean_text (s : String) : String := String.mk (cleanTextL s.toList)

/-- Python `str.strip()`. -/
def pyStrip (s : String) : String := String.mk (pyStripL s.toList)

/-- Python `str.lower()` (ASCII). -/
def pyLower (s : String) : String := String.mk (s.toList.map Char.toLower)

/-! ## Python `float()` on digit-and-dot strings

Every string the pipeline passes to `float()` has first been reduced to
digits and dots (either by filtering or by a `\d+\.\d{2}` regex match),
so it suffices to model `float()` on that fragment: it succeeds iff the
string has at most one dot and at least one digit and no other
characters, and returns the exact decimal value. -/

/-- Digit value of an ASCII digit. -/
def digitVal (c : Char) : ℕ := c.toNat - '0'.toNat

/-- Value of a digit list read in base 10. -/
def natVal (l : List Char) : ℕ := l.foldl (fun a c => 10 * a + digitVal c) 0

/-- Exact value of Python `float()` on a digit-and-dot string, `none`
meaning the call raises `ValueError`. -/
def pyFloatDD (l : List Char) : Option ℚ :=
  if l.all (fun c => c.isDigit || c = '.') then
    match l.splitOn '.' with
    | [as] => if as = [] then none else some (natVal as)
    | [as, bs] =>
      if as = [] ∧ bs = [] then none
      else some ((natVal as : ℚ) + (natVal bs : ℚ) / (10 : ℚ) ^ bs.length)
    | _ => none
  else none

/-- Result of running a piece of Python code: a value, or an uncaught
exception carrying its class name. -/
inductive PyResult (α : Type) where
  | ok : α → PyResult α
  | raised : String → PyResult α
deriving DecidableEq

/-- Whether the code returned normally. -/
def PyResult.isOk {α : Type} : PyResult α → Bool
  | .ok _ => true
  | .raised _ => false

/-- Python `float()` as an exception-producing computation. -/
def pyFloatR (l : List Char) : PyResult ℚ :=
  match pyFloatDD l with
  | some v => .ok v
  | none => .raised "ValueError"

/-! ## Decimal rounding (Python `round`) -/

/-- Round a rational to the nearest integer, ties to even
(Python's rounding mode). -/
def rnearest (q : ℚ) : ℤ :=
  let f : ℤ := ⌊q⌋
  let r : ℚ := q - (f : ℚ)
  if r < 1 / 2 then f
  else if (1 : ℚ) / 2 < r then f + 1
  else if f % 2 = 0 then f else f + 1

/-- Python `round(q, n)`, modelled exactly on rationals. -/
def roundTo (n : ℕ) (q : ℚ) : ℚ :=
  (rnearest (q * (10 : ℚ) ^ n) : ℚ) / (10 : ℚ) ^ n

/-! ## `price_diff_notifier.parse_price` -/

/-- `''.join(ch for ch in s if (ch.isdigit() or ch == '.'))`. -/
def digitsDots (s : String) : List Char :=
  s.toList.filter (fun c => c.isDigit || c = '.')

/-- `parse_price` with exceptions explicit: keep digit/dot characters,
call `float`, and catch `ValueError` (the `try/except` of the source). -/
def parse_priceR (s : String) : PyResult (Option ℚ) :=
  if s = "" then .ok none
  else
    match pyFloatR (digitsDots s) with
    | .ok v => .ok (some v)
    | .raised e => if e = "ValueError" then .ok none else .raised e

/-- `parse_price`: the value the caller sees (no exception escapes,
proved below). -/
def parse_price (s : String) : Option ℚ :=
  match parse_priceR s with
  | .ok v => v
  | .raised _ => none

/-! ## The `\d+\.\d{2}` search used by `save_csv.to_float` -/

/-- Attempt to match `\d+\.\d{2}` starting exactly at the head of `l`
(greedy `\d+`; the pattern's remainder cannot be rescued by shrinking
the digit run, so maximal munch is exact). -/
def ddAt (l : List Char) : Option (List Char) :=
  let ds := l.takeWhile Char.isDigit
  if ds = [] then none
  else
    match l.dropWhile Char.isDigit with
    | '.' :: a :: b :: _ =>
      if a.isDigit ∧ b.isDigit then some (ds ++ '.' :: a :: b :: []) else none
    | _ => none

/-- `re.search(r"\d+\.\d{2}", s)`: leftmost match. -/
def searchDD : List Char → Option (List Char)
  | [] => none
  | c :: cs =>
    match ddAt (c :: cs) with
    | some m => some m
    | none => searchDD cs

/-- `save_csv`'s local `to_float`, exceptions explicit: falsy values map
to `None`; otherwise search for the first `\d+\.\d{2}` substring and
`float` it inside `try/except ValueError`. -/
def toFloatSaveR (s : String) : PyResult (Option ℚ) :=
  if s = "" then .ok none
  else
    match searchDD s.toList with
    | some m =>
      match pyFloatR m with
      | .ok v => .ok (some v)
      | .raised e => if e = "ValueError" then .ok none else .raised e
    | none => .ok none

/-- `save_csv`'s local `to_float`. -/
def toFloatSave (s : String) : Option ℚ :=
  match toFloatSaveR s with
  | .ok v => v
  | .raised _ => none

/-- `recompute_csv`'s local `to_float`, exceptions explicit: keep
digit/dot characters (no emptiness guard in this variant) and `float`
the remainder inside `try/except ValueError`. -/
def toFloatRecomputeR (s : String) : PyResult (Option ℚ) :=
  match pyFloatR (digitsDots s) with
  | .ok v => .ok (some v)
  | .raised e => if e = "ValueError" then .ok none else .raised e

/-- `recompute_csv`'s local `to_float`. -/
def toFloatRecompute (s : String) : Option ℚ :=
  match toFloatRecomputeR s with
  | .ok v => v
  | .raised _ => none

/-! ## Snapshot differ (`price_diff_notifier.py`) -/

/-- The columns of a snapshot row that `load_csv`/`compare` read. -/
structure CsvRow where
  product_name : String
  sale_price : String
  post_title : String
  post_date : String
  source_url : String
deriving DecidableEq

/-- Identity key for diffing. -/
abbrev DiffKey := String × String

/-- `(row["product_name"].strip().lower(), row["source_url"].strip())`. -/
def rowKey (r : CsvRow) : DiffKey :=
  (pyLower (pyStrip r.product_name), pyStrip r.source_url)

/-- Python dict lookup on an insertion-ordered association list. -/
def alookup (k : DiffKey) : List (DiffKey × CsvRow) → Option CsvRow
  | [] => none
  | (k', v) :: rest => if k' = k then some v else alookup k rest

/-- Python `data[key] = row`: overwrite in place if the key is present,
else append (insertion order preserved, as for a Python dict). -/
def dictInsert (d : List (DiffKey × CsvRow)) (k : DiffKey) (v : CsvRow) :
    List (DiffKey × CsvRow) :=
  if (alookup k d).isSome then
    d.map (fun p => if p.1 = k then (k, v) else p)
  else d ++ [(k, v)]

/-- `load_csv`: fold the file's rows in order into a dict keyed by
`(product_name.strip().lower(), source_url.strip())`. -/
def load_csv (rows : List CsvRow) : List (DiffKey × CsvRow) :=
  rows.foldl (fun d r => dictInsert d (rowKey r) r) []

/-- One emitted price drop (the dict appended by `compare`). -/
structure PriceDrop where
  product_name : String
  old_price : ℚ
  new_price : ℚ
  drop_amount : ℚ
  post_title : String
  post_date : String
  source_url : String
deriving DecidableEq

/-- The drop dict `compare` appends for a qualifying new item. -/
def mkDrop (it : CsvRow) (o n : ℚ) : PriceDrop :=
  { product_name := it.product_name
    old_price := o
    new_price := n
    drop_amount := roundTo 2 (o - n)
    post_title := it.post_title
    post_date := it.post_date
    source_url := it.source_url }

/-- `compare`: iterate the new snapshot in order; skip keys missing from
the old snapshot; parse both prices; emit a drop when
`old_price and new_price and new_price < old_price` (Python truthiness:
a price parsing to `None` or to `0.0` blocks emission). -/
def compare (old : List (DiffKey × CsvRow)) :
    List (DiffKey × CsvRow) → List PriceDrop
  | [] => []
  | (k, it) :: rest =>
    match alookup k old with
    | none => compare old rest
    | some oit =>
      match parse_price oit.sale_price, parse_price it.sale_price with
      | some o, some n =>
        if o ≠ 0 ∧ n ≠ 0 ∧ n < o then mkDrop it o n :: compare old rest
        else compare old rest
      | some _, none => compare old rest
      | none, _ => compare old rest

/-- Identity key recomputed from a drop's fields (a drop copies
`product_name` and `source_url` verbatim from the new row). -/
def dropKey (d : PriceDrop) : DiffKey :=
  (pyLower (pyStrip d.product_name), pyStrip d.source_url)

/-- What `compare` does with one entry of the new snapshot (used to
state that the output is one ordered pass over the new snapshot). -/
def compareEntry (old : List (DiffKey × CsvRow)) (p : DiffKey × CsvRow) :
    Option PriceDrop :=
  match alookup p.1 old with
  | none => none
  | some oit =>
    match parse_price oit.sale_price, parse_price p.2.sale_price with
    | some o, some n =>
      if o ≠ 0 ∧ n ≠ 0 ∧ n < o then some (mkDrop p.2 o n) else none
    | some _, none => none
    | none, _ => none

/-- One CSV line of the drop report, in `save_drops` field order. -/
def dropToRow (d : PriceDrop) : String × ℚ × ℚ × ℚ × String × String × String :=
  (d.product_name, d.old_price, d.new_price, d.drop_amount,
   d.post_title, d.post_date, d.source_url)

/-- `save_drops` writes one row per drop, in list order. -/
def saveDropsRows (drops : List PriceDrop) :
    List (String × ℚ × ℚ × ℚ × String × String × String) :=
  drops.map dropToRow

/-! ## Derived metrics calculator (`save_csv` / `recompute_csv` rows) -/

/-- One row as the calculator sees it: the two source columns, the two
derived columns (a number or the empty cell), and the carried-along
columns the calculator does not read. -/
structure CalcRow where
  post_title : String
  post_date : String
  product_name : String
  sale_price : String
  regular_price : String
  instant_savings : String
  approx_regular_price : Option ℚ
  discount_percent : Option ℚ
  source_url : String
  scraped_at : String
deriving DecidableEq

/-- The row transform inside `save_csv`: parse with its local
`to_float`, then `if sale and instant:` set both derived fields, else
blank both; stamp `scraped_at`. -/
def saveRow (now : String) (r : CalcRow) : CalcRow :=
  match toFloatSave r.sale_price, toFloatSave r.instant_savings with
  | some s, some i =>
    if s ≠ 0 ∧ i ≠ 0 then
      { r with approx_regular_price := some (roundTo 2 (s + i))
               discount_percent := some (roundTo 1 (i / (s + i) * 100))
               scraped_at := now }
    else
      { r with approx_regular_price := none
               discount_percent := none
               scraped_at := now }
  | some _, none =>
    { r with approx_regular_price := none
             discount_percent := none
             scraped_at := now }
  | none, _ =>
    { r with approx_regular_price := none
             discount_percent := none
             scraped_at := now }

/-- The row transform inside `recompute_csv`: parse `sale_price` and
`instant_savings` with its local `to_float` (prior derived values are
ignored), then `if sale and instant:` set both derived fields, else
blank both. -/
def recomputeRow (r : CalcRow) : CalcRow :=
  match toFloatRecompute r.sale_price, toFloatRecompute r.instant_savings with
  | some s, some i =>
    if s ≠ 0 ∧ i ≠ 0 then
      { r with approx_regular_price := some (roundTo 2 (s + i))
               discount_percent := some (roundTo 1 (i / (s + i) * 100)) }
    else
      { r with approx_regular_price := none
               discount_percent := none }
  | some _, none =>
    { r with approx_regular_price := none
             discount_percent := none }
  | none, _ =>
    { r with approx_regular_price := none
             discount_percent := none }

/-! ## Price token scanner (`PRICE_RE` and the instant-savings pattern)

`PRICE_RE = (?:\$|CAD\s*\$?)\s*\d{1,3}(?:[,\d]{0,3})?(?:\.\d{2})?`.
After the mandatory currency marker and first digit, every remaining
sub-pattern is optional, so the Python engine never backtracks into an
earlier group on failure: greedy maximal munch per group is exact. -/

/-- Greedily take at most `n` characters satisfying `p`. -/
def takeUpTo : ℕ → (Char → Bool) → List Char → List Char × List Char
  | 0, _, l => ([], l)
  | _ + 1, _, [] => ([], [])
  | n + 1, p, c :: cs =>
    if p c then
      let (t, r) := takeUpTo n p cs
      (c :: t, r)
    else ([], c :: cs)

/-- The currency marker `(?:\$|CAD\s*\$?)` at the head of the input. -/
def matchCurrency : List Char → Option (List Char × List Char)
  | '$' :: rest => some (['$'], rest)
  | 'C' :: 'A' :: 'D' :: rest =>
    let ws := rest.takeWhile isPySpace
    match rest.dropWhile isPySpace with
    | '$' :: r2 => some ('C' :: 'A' :: 'D' :: (ws ++ ['$']), r2)
    | r2 => some ('C' :: 'A' :: 'D' :: ws, r2)
  | _ => none

/-- `PRICE_RE` matched at the head of the input: the matched substring
and the remainder, or `none`. -/
def matchPrice (l : List Char) : Option (List Char × List Char) :=
  match matchCurrency l with
  | none => none
  | some (pre, r1) =>
    let ws := r1.takeWhile isPySpace
    let r2 := r1.dropWhile isPySpace
    let (ds, r3) := takeUpTo 3 Char.isDigit r2
    if ds = [] then none
    else
      let (cd, r4) := takeUpTo 3 (fun c => c = ',' || c.isDigit) r3
      match r4 with
      | '.' :: a :: b :: rest =>
        if a.isDigit ∧ b.isDigit then
          some (pre ++ ws ++ ds ++ cd ++ ('.' :: a :: b :: []), rest)
        else some (pre ++ ws ++ ds ++ cd, r4)
      | _ => some (pre ++ ws ++ ds ++ cd, r4)

/-- `PRICE_RE.findall`: leftmost non-overlapping matches, scanning left
to right.  Every match consumes at least one character, so fuel equal to
the input length never truncates the scan. -/
def priceFindallAux : ℕ → List Char → List (List Char)
  | 0, _ => []
  | _ + 1, [] => []
  | fuel + 1, c :: cs =>
    match matchPrice (c :: cs) with
    | some (m, rest) => m :: priceFindallAux fuel rest
    | none => priceFindallAux fuel cs

/-- `PRICE_RE.findall` on a string. -/
def priceFindall (s : String) : List (List Char) :=
  priceFindallAux s.toList.length s.toList

/-- `PRICE_RE.search(s) is not None` (the `find_all(string=PRICE_RE)`
node filter). -/
def hasPriceL : List Char → Bool
  | [] => false
  | c :: cs => (matchPrice (c :: cs)).isSome || hasPriceL cs

/-- The text left of the first `PRICE_RE` match:
`PRICE_RE.sub(marker, text).split(marker)[0]`. -/
def priceMaskLeft : List Char → List Char
  | [] => []
  | c :: cs => if (matchPrice (c :: cs)).isSome then [] else c :: priceMaskLeft cs

/-- Case-insensitive literal match: consume `pat` from the head of the
input, comparing lowercased characters. -/
def ciMatch : List Char → List Char → Option (List Char)
  | [], r => some r
  | _ :: _, [] => none
  | p :: ps, c :: cs => if p.toLower = c.toLower then ciMatch ps cs else none

/-- The `\s+INSTANT\s+SAVINGS` tail of the instant-savings pattern,
starting after the numeric group `g`; returns `g` on success. -/
def instantTail (g : List Char) (r : List Char) : Option (List Char) :=
  if r.takeWhile isPySpace = [] then none
  else
    match ciMatch ['I', 'N', 'S', 'T', 'A', 'N', 'T'] (r.dropWhile isPySpace) with
    | none => none
    | some r2 =>
      if r2.takeWhile isPySpace = [] then none
      else
        match ciMatch ['S', 'A', 'V', 'I', 'N', 'G', 'S'] (r2.dropWhile isPySpace) with
        | none => none
        | some _ => some g

/-- `\(\$(\d+(?:\.\d{2})?)\s+INSTANT\s+SAVINGS` (case-insensitive)
matched at the head of the input; returns group 1.  If the optional
`\.\d{2}` is taken the following `\s+` is checked right after; skipping
the optional group could only re-expose the dot, which is not
whitespace, so no backtracking alternative exists. -/
def instantAt (l : List Char) : Option (List Char) :=
  match l with
  | '(' :: '$' :: r1 =>
    let ds := r1.takeWhile Char.isDigit
    if ds = [] then none
    else
      match r1.dropWhile Char.isDigit with
      | '.' :: a :: b :: r3 =>
        if a.isDigit ∧ b.isDigit then instantTail (ds ++ ('.' :: a :: b :: [])) r3
        else none
      | r2 => instantTail ds r2
  | _ => none

/-- `re.search` for the instant-savings pattern: leftmost match's
group 1. -/
def searchInstantL : List Char → Option (List Char)
  | [] => none
  | c :: cs =>
    match instantAt (c :: cs) with
    | some g => some g
    | none => searchInstantL cs

/-! ## Product name resolver and document scan -/

/-- The characters of the separator class in `nearest_text_before`
(`re.split(r"[â€¢\-\â€“\|:\n]", left)`, written byte-for-byte as in the
source file). -/
def sepChars : List Char := ['â', '€', '¢', '-', '“', '|', ':', '\n']

/-- `re.split` on the separator class (empty pieces kept). -/
def splitSeps : List Char → List (List Char)
  | [] => [[]]
  | c :: cs =>
    if c ∈ sepChars then [] :: splitSeps cs
    else
      match splitSeps cs with
      | p :: ps => (c :: p) :: ps
      | [] => [[c]]

/-- Python `l[-n:]`: the last at most `n` characters. -/
def takeRightN (n : ℕ) (l : List Char) : List Char := l.drop (l.length - n)

/-- A text node as the scraper reads it off the DOM: its text, the
`alt` attribute of `parent.find_previous("img")` when the node has a
parent and that image and attribute exist, the parent's joined text
(`parent.get_text(" ")`), and the parent's previous sibling's text. -/
structure TextNode where
  text : String
  imgAlt : Option String
  parentText : Option String
  prevSibText : Option String
deriving DecidableEq

/-- `nearest_text_before`: mask prices out of the cleaned parent text,
keep what is left of the first masked position, split it on the
separator class and keep the tail of the last segment; fall back to the
previous sibling's text, truncated from the left. -/
def nearest_text_before (node : TextNode) : String :=
  let parent_text :=
    match node.parentText with
    | some t => clean_text t
    | none => ""
  let left := pyStripL (priceMaskLeft parent_text.toList)
  if left ≠ [] then
    String.mk (takeRightN 180 (cleanTextL ((splitSeps left).getLastD [])))
  else
    match node.parentText with
    | none => ""
    | some _ =>
      match node.prevSibText with
      | some t => String.mk ((cleanTextL t.toList).take 180)
      | none => ""

/-- One extracted record, before derived metrics are added. -/
structure SaleRec where
  post_title : String
  post_date : String
  product_name : String
  sale_price : String
  regular_price : String
  instant_savings : String
  source_url : String
deriving DecidableEq

/-- Intra-document dedup key. -/
abbrev NameKey := String × String

/-- `(name.lower(), sale_price)`. -/
def recKey (r : SaleRec) : NameKey := (pyLower r.product_name, r.sale_price)

/-- The name resolution chain of the scan loop: the `alt` of the
nearest preceding image when present and non-empty (checked raw, then
cleaned), otherwise `nearest_text_before`. -/
def resolveName (node : TextNode) : String :=
  let name1 :=
    match node.imgAlt with
    | some alt => if alt ≠ "" then clean_text alt else ""
    | none => ""
  if name1 = "" then nearest_text_before node else name1

/-- The instant-savings annotation of one text node: the matched
group, or the empty string when the pattern does not occur. -/
def instantOf (txt : String) : String :=
  match searchInstantL txt.toList with
  | some g => String.mk g
  | none => ""

/-- The record dict appended by the scan loop. -/
def mkSaleRec (pt : String) (pd : Option String)
    (su name sale instant : String) : SaleRec :=
  { post_title := pt
    post_date := pd.getD ""
    product_name := name
    sale_price := sale
    regular_price := ""
    instant_savings := instant
    source_url := su }

/-- The body of the scan loop for one text node: extract the
instant-savings annotation and the price tokens, take the last price
token as the sale price (skip the node if there is none), resolve the
name, and drop the occurrence when the name is empty or the
`(lowercased name, sale price)` key was already seen.  (In the source
the instant-savings extraction happens before the price check; it is
pure, so the order does not matter.) -/
def stepNode (post_title : String) (post_date : Option String)
    (source_url : String) (seen : List NameKey) (node : TextNode) :
    Option SaleRec × List NameKey :=
  let txt := clean_text node.text
  match (priceFindall txt).getLast? with
  | none => (none, seen)
  | some sp =>
    let sale_price := String.mk sp
    let name := resolveName node
    let key : NameKey := (pyLower name, sale_price)
    if name = "" ∨ key ∈ seen then (none, seen)
    else
      (some (mkSaleRec post_title post_date source_url name sale_price
              (instantOf txt)),
       key :: seen)

/-- The scan loop, threading the `seen_pairs` set. -/
def extractAux (pt : String) (pd : Option String) (su : String) :
    List NameKey → List TextNode → List SaleRec
  | _, [] => []
  | seen, n :: rest =>
    match stepNode pt pd su seen n with
    | (some r, seen') => r :: extractAux pt pd su seen' rest
    | (none, seen') => extractAux pt pd su seen' rest

/-- `extract_items_from_post`: scan the text nodes that `PRICE_RE`
selects (`find_all(string=PRICE_RE)`), with an initially empty
`seen_pairs` set. -/
def extract_items_from_post (source_url post_title : String)
    (post_date : Option String) (nodes : List TextNode) : List SaleRec :=
  extractAux post_title post_date source_url []
    (nodes.filter (fun n => hasPriceL n.text.toList))

/-! ## Theorems -/

/-- The `try/except ValueError` in `parse_price` always returns
normally, with the value of `float` on the filtered characters. -/
lemma parse_priceR_eq (s : String) (hs : s ≠ "") :
    parse_priceR s = .ok (pyFloatDD (digitsDots s)) := by
  unfold parse_priceR pyFloatR
  rw [if_neg hs]
  cases pyFloatDD (digitsDots s) <;> simp

/-- The `try/except ValueError` in `recompute_csv`'s `to_float` always
returns normally. -/
lemma toFloatRecomputeR_eq (s : String) :
    toFloatRecomputeR s = .ok (pyFloatDD (digitsDots s)) := by
  unfold toFloatRecomputeR pyFloatR
  cases pyFloatDD (digitsDots s) <;> simp

/-- The `try/except ValueError` in `save_csv`'s `to_float` always
returns normally, with the value of `float` on the regex match when
there is one. -/
lemma toFloatSaveR_eq (s : String) (hs : s ≠ "") :
    toFloatSaveR s =
      .ok (match searchDD s.toList with
           | some m => pyFloatDD m
           | none => none) := by
  unfold toFloatSaveR
  rw [if_neg hs]
  cases searchDD s.toList with
  | none => rfl
  | some m =>
    unfold pyFloatR
    cases h : pyFloatDD m <;> simp [h]

/-- `parse_price` as a total function of the filtered characters. -/
lemma parse_price_eq (s : String) (hs : s ≠ "") :
    parse_price s = pyFloatDD (digitsDots s) := by
  unfold parse_price
  rw [parse_priceR_eq s hs]

/-- `recompute_csv`'s `to_float` as a total function. -/
lemma toFloatRecompute_eq (s : String) :
    toFloatRecompute s = pyFloatDD (digitsDots s) := by
  unfold toFloatRecompute
  rw [toFloatRecomputeR_eq]

/-- `save_csv`'s `to_float` as a total function. -/
lemma toFloatSave_eq (s : String) (hs : s ≠ "") :
    toFloatSave s =
      (match searchDD s.toList with
       | some m => pyFloatDD m
       | none => none) := by
  unfold toFloatSave
  rw [toFloatSaveR_eq s hs]

/-- C2.  The claim as stated is false: `save_csv`'s `to_float` takes the
first `\d+\.\d{2}` substring, and in `$1,234.56` the comma breaks the
digit run, so it recovers `234.56`, not `1234.56`. -/
theorem save_to_float_thousands_counterexample :
    toFloatSave "$1,234.56" = some (23456 / 100 : ℚ) ∧
    (23456 / 100 : ℚ) ≠ 123456 / 100 := by
  constructor
  · with_unfolding_all rfl
  · with_unfolding_all decide

/-- C2 (amended).  `parse_price` and `recompute_csv`'s `to_float`
recover `12.34` from `$12.34` and `1234.56` from `$1,234.56`;
`save_csv`'s `to_float` recovers `12.34` from `$12.34` but `234.56`
from `$1,234.56` (the first `\d+\.\d{2}` substring, cut at the
thousands separator). -/
theorem price_string_parsing_values :
    parse_price "$12.34" = some (1234 / 100 : ℚ) ∧
    parse_price "$1,234.56" = some (123456 / 100 : ℚ) ∧
    toFloatRecompute "$12.34" = some (1234 / 100 : ℚ) ∧
    toFloatRecompute "$1,234.56" = some (123456 / 100 : ℚ) ∧
    toFloatSave "$12.34" = some (1234 / 100 : ℚ) ∧
    toFloatSave "$1,234.56" = some (23456 / 100 : ℚ) := by
  refine ⟨?_, ?_, ?_, ?_, ?_, ?_⟩ <;> with_unfolding_all rfl

/-- C3.  The claim as stated is false: the two `to_float` variants
disagree at the input `12` (no two-decimal substring, so the
persistence-time parser yields no value, while the recomputation-time
parser strips nothing and parses `12`). -/
theorem to_float_variants_differ :
    toFloatSave "12" = none ∧ toFloatRecompute "12" = some 12 := by
  exact ⟨by with_unfolding_all rfl, by with_unfolding_all rfl⟩

/-- C9.  No numeric parsing routine lets an exception escape: the only
exception `float()` can raise on these inputs is `ValueError`, and each
routine's `try/except` catches it, so every call returns normally. -/
theorem numeric_parsing_never_raises (s : String) :
    (parse_priceR s).isOk = true ∧ (toFloatSaveR s).isOk = true ∧
    (toFloatRecomputeR s).isOk = true := by
  refine ⟨?_, ?_, ?_⟩
  · by_cases hs : s = ""
    · simp [hs, parse_priceR, PyResult.isOk]
    · rw [parse_priceR_eq s hs]; rfl
  · by_cases hs : s = ""
    · simp [hs, toFloatSaveR, PyResult.isOk]
    · rw [toFloatSaveR_eq s hs]; rfl
  · rw [toFloatRecomputeR_eq]; rfl

/-- C9 witness at a malformed input. -/
theorem numeric_parsing_never_raises_witness :
    (parse_priceR "1.2.3garbage").isOk = true ∧
    (toFloatSaveR "1.2.3garbage").isOk = true ∧
    (toFloatRecomputeR "1.2.3garbage").isOk = true :=
  numeric_parsing_never_raises "1.2.3garbage"

/-- C5.  Recomputing derived fields is idempotent: `recompute_csv`'s row
transform reads only `sale_price` and `instant_savings`, which it leaves
untouched, so a second application reproduces the first. -/
theorem recompute_idempotent (r : CalcRow) :
    recomputeRow (recomputeRow r) = recomputeRow r := by
  rcases h1 : toFloatRecompute r.sale_price with _ | s <;>
    rcases h2 : toFloatRecompute r.instant_savings with _ | i <;>
      simp [recomputeRow, h1, h2]
  split_ifs with h <;> simp [recomputeRow, h1, h2, h]

/-- C4.  In both `save_csv` and `recompute_csv`: when both operands
parse to positive numbers the derived fields are the rounded regular
price and discount percentage; when either operand is missing or parses
to zero both are blanked; and in every case the two derived fields are
blank or set together. -/
theorem derived_fields_spec (now : String) (r : CalcRow) :
    (∀ s i, toFloatSave r.sale_price = some s →
      toFloatSave r.instant_savings = some i → 0 < s → 0 < i →
      (saveRow now r).approx_regular_price = some (roundTo 2 (s + i)) ∧
      (saveRow now r).discount_percent = some (roundTo 1 (i / (s + i) * 100))) ∧
    ((toFloatSave r.sale_price = none ∨ toFloatSave r.sale_price = some 0 ∨
      toFloatSave r.instant_savings = none ∨
      toFloatSave r.instant_savings = some 0) →
      (saveRow now r).approx_regular_price = none ∧
      (saveRow now r).discount_percent = none) ∧
    ((saveRow now r).approx_regular_price = none ↔
      (saveRow now r).discount_percent = none) ∧
    (∀ s i, toFloatRecompute r.sale_price = some s →
      toFloatRecompute r.instant_savings = some i → 0 < s → 0 < i →
      (recomputeRow r).approx_regular_price = some (roundTo 2 (s + i)) ∧
      (recomputeRow r).discount_percent = some (roundTo 1 (i / (s + i) * 100))) ∧
    ((toFloatRecompute r.sale_price = none ∨
      toFloatRecompute r.sale_price = some 0 ∨
      toFloatRecompute r.instant_savings = none ∨
      toFloatRecompute r.instant_savings = some 0) →
      (recomputeRow r).approx_regular_price = none ∧
      (recomputeRow r).discount_percent = none) ∧
    ((recomputeRow r).approx_regular_price = none ↔
      (recomputeRow r).discount_percent = none) := by
  refine ⟨?_, ?_, ?_, ?_, ?_, ?_⟩
  · intro s i hs hi hs0 hi0
    simp [saveRow, hs, hi, hs0.ne', hi0.ne']
  · intro h
    rcases h1 : toFloatSave r.sale_price with _ | s <;>
      rcases h2 : toFloatSave r.instant_savings with _ | i <;>
        simp [saveRow, h1, h2]
    simp only [h1, h2, Option.some.injEq, reduceCtorEq, false_or] at h
    have hz : ¬(¬s = 0 ∧ ¬i = 0) := by
      rcases h with h | h <;> simp [h]
    rw [if_neg hz]
    exact ⟨rfl, rfl⟩
  · rcases h1 : toFloatSave r.sale_price with _ | s <;>
      rcases h2 : toFloatSave r.instant_savings with _ | i <;>
        simp [saveRow, h1, h2]
    split_ifs <;> simp
  · intro s i hs hi hs0 hi0
    simp [recomputeRow, hs, hi, hs0.ne', hi0.ne']
  · intro h
    rcases h1 : toFloatRecompute r.sale_price with _ | s <;>
      rcases h2 : toFloatRecompute r.instant_savings with _ | i <;>
        simp [recomputeRow, h1, h2]
    simp only [h1, h2, Option.some.injEq, reduceCtorEq, false_or] at h
    have hz : ¬(¬s = 0 ∧ ¬i = 0) := by
      rcases h with h | h <;> simp [h]
    rw [if_neg hz]
    exact ⟨rfl, rfl⟩
  · rcases h1 : toFloatRecompute r.sale_price with _ | s <;>
      rcases h2 : toFloatRecompute r.instant_savings with _ | i <;>
        simp [recomputeRow, h1, h2]
    split_ifs <;> simp

/-- C4 witness at a concrete row (`sale $10.00`, savings `$2.00`). -/
theorem derived_fields_spec_witness :
    (saveRow "2025-01-01"
      { post_title := "t", post_date := "d", product_name := "Widget"
        sale_price := "$10.00", regular_price := ""
        instant_savings := "$2.00", approx_regular_price := none
        discount_percent := none, source_url := "u"
        scraped_at := "" }).approx_regular_price =
      some (roundTo 2 ((10 : ℚ) + 2)) ∧
    (saveRow "2025-01-01"
      { post_title := "t", post_date := "d", product_name := "Widget"
        sale_price := "$10.00", regular_price := ""
        instant_savings := "$2.00", approx_regular_price := none
        discount_percent := none, source_url := "u"
        scraped_at := "" }).discount_percent =
      some (roundTo 1 ((2 : ℚ) / (10 + 2) * 100)) :=
  (derived_fields_spec "2025-01-01" _).1 10 2
    (by with_unfolding_all rfl) (by with_unfolding_all rfl)
    (by norm_num) (by norm_num)

/-- Lookup distributes over the append of two association lists. -/
lemma alookup_append (d1 d2 : List (DiffKey × CsvRow)) (k : DiffKey) :
    alookup k (d1 ++ d2) =
      match alookup k d1 with
      | some v => some v
      | none => alookup k d2 := by
  induction d1 with
  | nil => simp [alookup]
  | cons p rest ih =>
    simp only [List.cons_append, alookup]
    split
    · rfl
    · exact ih

/-- Replacing the value held at `k` changes lookup at `k` to the new
value when `k` is present. -/
lemma alookup_replace_self (d : List (DiffKey × CsvRow)) (k : DiffKey)
    (v : CsvRow) :
    alookup k (d.map (fun p => if p.1 = k then (k, v) else p)) =
      (alookup k d).map (fun _ => v) := by
  induction d with
  | nil => simp [alookup]
  | cons p rest ih =>
    rcases p with ⟨pk, pv⟩
    simp only [List.map_cons]
    dsimp only
    by_cases hp : pk = k
    · subst hp
      rw [if_pos rfl]
      simp only [alookup, if_pos rfl]
      simp
    · rw [if_neg hp]
      simp only [alookup, if_neg hp]
      exact ih

/-- Replacing the value held at another key leaves lookup unchanged. -/
lemma alookup_replace_ne (d : List (DiffKey × CsvRow)) (k k' : DiffKey)
    (v : CsvRow) (hne : k' ≠ k) :
    alookup k (d.map (fun p => if p.1 = k' then (k', v) else p)) =
      alookup k d := by
  induction d with
  | nil => simp [alookup]
  | cons p rest ih =>
    rcases p with ⟨pk, pv⟩
    simp only [List.map_cons]
    dsimp only
    by_cases hp : pk = k'
    · subst hp
      rw [if_pos rfl]
      simp only [alookup, if_neg hne]
      exact ih
    · rw [if_neg hp]
      simp only [alookup]
      split
      · rfl
      · exact ih

/-- Looking up in a dict after a same-key insert yields the new value. -/
lemma alookup_dictInsert_self (d : List (DiffKey × CsvRow)) (k : DiffKey)
    (v : CsvRow) : alookup k (dictInsert d k v) = some v := by
  unfold dictInsert
  split
  · rename_i hsome
    rw [alookup_replace_self]
    rcases Option.isSome_iff_exists.mp hsome with ⟨w, hw⟩
    simp [hw]
  · rename_i hnone
    rw [alookup_append]
    rw [Option.not_isSome_iff_eq_none] at hnone
    simp [hnone, alookup]

/-- Looking up in a dict after a different-key insert is unchanged. -/
lemma alookup_dictInsert_ne (d : List (DiffKey × CsvRow)) (k k' : DiffKey)
    (v : CsvRow) (hne : k' ≠ k) :
    alookup k (dictInsert d k' v) = alookup k d := by
  unfold dictInsert
  split
  · exact alookup_replace_ne d k k' v hne
  · rw [alookup_append]
    cases alookup k d <;> simp [alookup, hne]

/-- The fold of `load_csv` over remaining rows, with any accumulator:
the last matching row wins, falling back to the accumulator. -/
lemma load_csv_fold (k : DiffKey) :
    ∀ (rows : List CsvRow) (acc : List (DiffKey × CsvRow)),
      alookup k (rows.foldl (fun d r => dictInsert d (rowKey r) r) acc) =
        match (rows.filter (fun r => decide (rowKey r = k))).getLast? with
        | some r => some r
        | none => alookup k acc := by
  intro rows
  induction rows with
  | nil => intro acc; simp
  | cons r rest ih =>
    intro acc
    rw [List.foldl_cons, ih]
    by_cases hr : rowKey r = k
    · rw [List.filter_cons_of_pos (by simp [hr])]
      cases hrest : (rest.filter (fun r => decide (rowKey r = k))).getLast? with
      | some r' => simp [List.getLast?_cons, List.getLastD_eq_getLast?, hrest]
      | none =>
        simp only [List.getLast?_cons, List.getLastD_eq_getLast?, hrest]
        subst hr
        simp [alookup_dictInsert_self]
    · rw [List.filter_cons_of_neg (by simp [hr])]
      cases hrest : (rest.filter (fun r => decide (rowKey r = k))).getLast? with
      | some r' => simp [hrest]
      | none => simp [hrest, alookup_dictInsert_ne _ _ _ _ hr]

/-- C10.  `load_csv` keeps, for every identity key, exactly the last row
of the file with that key: lookup in the loaded snapshot equals the last
matching row of the file. -/
theorem load_csv_last_row_wins (rows : List CsvRow) (k : DiffKey) :
    alookup k (load_csv rows) =
      (rows.filter (fun r => decide (rowKey r = k))).getLast? := by
  unfold load_csv
  rw [load_csv_fold]
  cases (rows.filter (fun r => decide (rowKey r = k))).getLast? <;>
    simp [alookup]

/-- One step of `compare` is what `compareEntry` says about the head
entry, followed by the rest. -/
lemma compare_cons (old : List (DiffKey × CsvRow)) (k : DiffKey)
    (it : CsvRow) (rest : List (DiffKey × CsvRow)) :
    compare old ((k, it) :: rest) =
      (match compareEntry old (k, it) with
       | some d => [d]
       | none => []) ++ compare old rest := by
  cases h : alookup k old with
  | none => simp [compare, compareEntry, h]
  | some oit =>
    cases h1 : parse_price oit.sale_price with
    | none => simp [compare, compareEntry, h, h1]
    | some o =>
      cases h2 : parse_price it.sale_price with
      | none => simp [compare, compareEntry, h, h1, h2]
      | some n =>
        by_cases hc : o ≠ 0 ∧ n ≠ 0 ∧ n < o <;>
          simp [compare, compareEntry, h, h1, h2, hc]

/-- `compare` is a single ordered pass over the new snapshot. -/
lemma compare_eq_filterMap (old new : List (DiffKey × CsvRow)) :
    compare old new = new.filterMap (compareEntry old) := by
  induction new with
  | nil => simp [compare]
  | cons p rest ih =>
    rcases p with ⟨k, it⟩
    rw [compare_cons, List.filterMap_cons]
    cases compareEntry old (k, it) <;> simp [ih]

/-- A drop produced by `compareEntry` carries the identity key of the
new row it came from. -/
lemma compareEntry_dropKey (old : List (DiffKey × CsvRow))
    (p : DiffKey × CsvRow) (d : PriceDrop)
    (h : compareEntry old p = some d) : dropKey d = rowKey p.2 := by
  unfold compareEntry at h
  split at h
  · simp at h
  · split at h
    · split at h
      · cases h
        rfl
      · simp at h
    · simp at h
    · simp at h

/-- Every drop `compare` emits has the identity key of some entry of the
new snapshot. -/
lemma compare_dropKey_mem (old : List (DiffKey × CsvRow)) :
    ∀ (new : List (DiffKey × CsvRow)),
      (∀ p ∈ new, p.1 = rowKey p.2) →
      ∀ d ∈ compare old new, dropKey d ∈ new.map Prod.fst := by
  intro new
  induction new with
  | nil =>
    intro _ d hd
    simp [compare] at hd
  | cons p rest ih =>
    rcases p with ⟨k, it⟩
    intro hwf d hd
    rw [compare_cons] at hd
    rcases List.mem_append.mp hd with hd | hd
    · cases hce : compareEntry old (k, it) with
      | none =>
        rw [hce] at hd
        simp at hd
      | some d0 =>
        rw [hce] at hd
        simp only [List.mem_singleton] at hd
        subst hd
        have hdk := compareEntry_dropKey old (k, it) d hce
        have hk := hwf (k, it) (by simp)
        simp only [List.map_cons, List.mem_cons]
        exact Or.inl (hdk.trans hk.symm)
    · simp only [List.map_cons, List.mem_cons]
      exact Or.inr (ih (fun q hq => hwf q (List.mem_cons_of_mem _ hq)) d hd)

/-- When a key does not occur in the new snapshot, no emitted drop
carries it. -/
lemma compare_filter_eq_nil (old new : List (DiffKey × CsvRow))
    (k : DiffKey) (hwf : ∀ p ∈ new, p.1 = rowKey p.2)
    (hk : k ∉ new.map Prod.fst) :
    (compare old new).filter (fun d => decide (dropKey d = k)) = [] := by
  rw [List.filter_eq_nil_iff]
  intro d hd
  simp only [decide_eq_true_eq]
  intro he
  exact hk (he ▸ compare_dropKey_mem old new hwf d hd)

/-- C1 (amended).  For every identity key, `compare` emits exactly one
drop — `mkDrop it o n`, whose `drop_amount` is `round(o - n, 2)` — when
the key is in both snapshots and both prices parse to nonzero values
with `n < o`; and no drop for that key otherwise (key absent from either
snapshot, a price unparsable or parsing to zero, or no strict
decrease). -/
theorem compare_emits_one_drop_per_key (old new : List (DiffKey × CsvRow))
    (hwf : ∀ p ∈ new, p.1 = rowKey p.2)
    (hnd : (new.map Prod.fst).Nodup) (k : DiffKey) :
    (compare old new).filter (fun d => decide (dropKey d = k)) =
      match alookup k new with
      | none => []
      | some it =>
        match alookup k old with
        | none => []
        | some oit =>
          match parse_price oit.sale_price, parse_price it.sale_price with
          | some o, some n =>
            if o ≠ 0 ∧ n ≠ 0 ∧ n < o then [mkDrop it o n] else []
          | some _, none => []
          | none, _ => [] := by
  induction new with
  | nil => simp [compare, alookup]
  | cons p rest ih =>
    rcases p with ⟨k', it'⟩
    have hk' : k' = rowKey it' := hwf (k', it') (by simp)
    rw [List.map_cons, List.nodup_cons] at hnd
    have hwf' : ∀ q ∈ rest, q.1 = rowKey q.2 :=
      fun q hq => hwf q (List.mem_cons_of_mem _ hq)
    rw [compare_cons, List.filter_append]
    by_cases hkk : k' = k
    · subst hkk
      rw [compare_filter_eq_nil old rest k' hwf' hnd.1, List.append_nil]
      have hlookup : alookup k' ((k', it') :: rest) = some it' := by
        simp [alookup]
      rw [hlookup]
      cases halo : alookup k' old with
      | none => simp [compareEntry, halo]
      | some oit =>
        cases h1 : parse_price oit.sale_price with
        | none => simp [compareEntry, halo, h1]
        | some o =>
          cases h2 : parse_price it'.sale_price with
          | none => simp [compareEntry, halo, h1, h2]
          | some n =>
            by_cases hc : o ≠ 0 ∧ n ≠ 0 ∧ n < o
            · have hdk : dropKey (mkDrop it' o n) = k' := hk'.symm
              simp [compareEntry, halo, h1, h2, hc, hdk]
            · simp [compareEntry, halo, h1, h2, hc]
    · have hlookup : alookup k ((k', it') :: rest) = alookup k rest := by
        simp [alookup, hkk]
      rw [hlookup, ih hwf' hnd.2]
      have hhead :
          (List.filter (fun d => decide (dropKey d = k))
            (match compareEntry old (k', it') with
             | some d => [d]
             | none => [])) = [] := by
        cases hce : compareEntry old (k', it') with
        | none => rfl
        | some d0 =>
          have hdk : dropKey d0 = k' :=
            (compareEntry_dropKey old (k', it') d0 hce).trans hk'.symm
          simp [hdk, hkk]
      rw [hhead, List.nil_append]


/-- C1 witness at the spec's own example: Widget drops from `$20.00` to
`$15.00`, yielding exactly one drop of amount `5`. -/
theorem compare_emits_one_drop_per_key_witness :
    (compare [(("widget", "u"), ⟨"Widget", "$20.00", "t", "d", "u"⟩)]
       [(("widget", "u"), ⟨"Widget", "$15.00", "t", "d", "u"⟩)]).filter
        (fun d => decide (dropKey d = ("widget", "u"))) =
      [mkDrop ⟨"Widget", "$15.00", "t", "d", "u"⟩ 20 15] := by
  have h := compare_emits_one_drop_per_key
    [(("widget", "u"), ⟨"Widget", "$20.00", "t", "d", "u"⟩)]
    [(("widget", "u"), ⟨"Widget", "$15.00", "t", "d", "u"⟩)]
    (by decide) (by decide) ("widget", "u")
  rw [h]
  with_unfolding_all rfl

/-- C1.  The claim as stated is false: with the key present in both
snapshots and the sale price strictly decreased numerically
(`$5.00` to `$0.00`), `compare` emits no drop, because Python's
truthiness test treats a price parsing to `0.0` as missing. -/
theorem zero_price_blocks_drop_counterexample :
    parse_price "$5.00" = some 5 ∧ parse_price "$0.00" = some 0 ∧
    (0 : ℚ) < 5 ∧
    alookup ("widget", "u")
      [(("widget", "u"), ⟨"Widget", "$5.00", "t", "d", "u"⟩)] =
      some ⟨"Widget", "$5.00", "t", "d", "u"⟩ ∧
    compare [(("widget", "u"), ⟨"Widget", "$5.00", "t", "d", "u"⟩)]
      [(("widget", "u"), ⟨"Widget", "$0.00", "t", "d", "u"⟩)] = [] := by
  refine ⟨by with_unfolding_all rfl, by with_unfolding_all rfl,
    by norm_num, by with_unfolding_all rfl, by with_unfolding_all rfl⟩

/-- C6 (amended).  Drops are reported in encounter order: `compare` is
one ordered pass over the new snapshot, and `save_drops` writes the
report rows in exactly the order of that list — no reordering by
`drop_amount` happens anywhere. -/
theorem drops_reported_in_encounter_order
    (old new : List (DiffKey × CsvRow)) :
    compare old new = new.filterMap (compareEntry old) ∧
    saveDropsRows (compare old new) = (compare old new).map dropToRow :=
  ⟨compare_eq_filterMap old new, rfl⟩

/-- C6.  The claim as stated is false: at this input the reported list
of drops is `[1, 6]` in encounter order, which is not ordered by
`drop_amount` descending. -/
theorem drops_not_sorted_by_amount_counterexample :
    (compare
      (load_csv [⟨"A", "$10.00", "t", "d", "u1"⟩,
                 ⟨"B", "$10.00", "t", "d", "u2"⟩])
      (load_csv [⟨"A", "$9.00", "t", "d", "u1"⟩,
                 ⟨"B", "$4.00", "t", "d", "u2"⟩])).map
        PriceDrop.drop_amount = [1, 6] ∧ (1 : ℚ) < 6 :=
  ⟨by with_unfolding_all rfl, by norm_num⟩


/-- On a digit run followed by a dot, `takeWhile isDigit` is the run and
`dropWhile isDigit` starts at the dot. -/
lemma takeWhile_append_dot (ds t : List Char)
    (h : ∀ c ∈ ds, c.isDigit = true) :
    (ds ++ '.' :: t).takeWhile Char.isDigit = ds ∧
    (ds ++ '.' :: t).dropWhile Char.isDigit = '.' :: t := by
  induction ds with
  | nil =>
    constructor <;> simp [List.takeWhile_cons, List.dropWhile_cons]
  | cons c cs ih =>
    have hc := h c (by simp)
    have ihh := ih (fun x hx => h x (by simp [hx]))
    constructor <;>
      simp [List.takeWhile_cons, List.dropWhile_cons, hc, ihh.1, ihh.2]

/-- The `\d+\.\d{2}` search on a canonical price string finds the whole
numeric part. -/
lemma searchDD_canonical (ds : List Char) (a b : Char) (hne : ds ≠ [])
    (hds : ∀ c ∈ ds, c.isDigit = true) (ha : a.isDigit = true)
    (hb : b.isDigit = true) :
    searchDD ('$' :: ds ++ '.' :: a :: b :: []) =
      some (ds ++ '.' :: a :: b :: []) := by
  have hdollar : ddAt ('$' :: (ds ++ '.' :: a :: b :: [])) = none := by
    unfold ddAt
    simp [List.takeWhile_cons]
  cases ds with
  | nil => exact absurd rfl hne
  | cons d ds0 =>
    have hsplit := takeWhile_append_dot (d :: ds0) (a :: b :: []) hds
    have hdd : ddAt (d :: (ds0 ++ '.' :: a :: b :: [])) =
        some ((d :: ds0) ++ '.' :: a :: b :: []) := by
      unfold ddAt
      rw [show (d :: (ds0 ++ '.' :: a :: b :: [])) =
            ((d :: ds0) ++ '.' :: a :: b :: []) from rfl]
      rw [hsplit.1, hsplit.2]
      simp [ha, hb]
    have hstep : ∀ (c : Char) (cs : List Char),
        searchDD (c :: cs) =
          match ddAt (c :: cs) with
          | some m => some m
          | none => searchDD cs := fun c cs => rfl
    rw [List.cons_append, hstep, hdollar]
    show searchDD ((d :: ds0) ++ '.' :: a :: b :: []) = _
    rw [List.cons_append, hstep, hdd]
    rfl

/-- C3 (amended).  The two `to_float` variants agree on every canonical
price string: a dollar sign, one or more digits, a point and exactly two
digits.  (They are not extensionally equal in general; see the
counterexample.) -/
theorem to_float_variants_agree_on_canonical (ds : List Char) (a b : Char)
    (hne : ds ≠ []) (hds : ∀ c ∈ ds, c.isDigit = true)
    (ha : a.isDigit = true) (hb : b.isDigit = true) :
    toFloatSave (String.mk ('$' :: ds ++ '.' :: a :: b :: [])) =
      toFloatRecompute (String.mk ('$' :: ds ++ '.' :: a :: b :: [])) := by
  have hsne : String.mk ('$' :: ds ++ '.' :: a :: b :: []) ≠ "" := by
    intro h
    have h2 : ('$' :: ds ++ '.' :: a :: b :: []) = [] := congrArg String.toList h
    simp at h2
  rw [toFloatSave_eq _ hsne, toFloatRecompute_eq]
  have htl : (String.mk ('$' :: ds ++ '.' :: a :: b :: [])).toList =
      '$' :: ds ++ '.' :: a :: b :: [] := rfl
  rw [htl, searchDD_canonical ds a b hne hds ha hb]
  have hfilter : digitsDots (String.mk ('$' :: ds ++ '.' :: a :: b :: [])) =
      ds ++ '.' :: a :: b :: [] := by
    unfold digitsDots
    rw [htl, show ('$' :: ds ++ '.' :: a :: b :: []) =
          '$' :: (ds ++ '.' :: a :: b :: []) from rfl,
        List.filter_cons]
    have hd : (Char.isDigit '$' || decide ('$' = '.')) = false := by decide
    rw [hd]
    simp only [Bool.false_eq_true, if_false]
    apply List.filter_eq_self.mpr
    intro c hc
    rcases List.mem_append.mp hc with hc | hc
    · simp [hds c hc]
    · simp only [List.mem_cons, List.not_mem_nil, or_false] at hc
      rcases hc with rfl | rfl | rfl <;> simp [ha, hb]
  rw [hfilter]

/-- C3 witness at `$12.34`: both variants return the same value. -/
theorem to_float_variants_agree_on_canonical_witness :
    toFloatSave (String.mk ['$', '1', '2', '.', '3', '4']) =
      toFloatRecompute (String.mk ['$', '1', '2', '.', '3', '4']) :=
  to_float_variants_agree_on_canonical ['1', '2'] '3' '4'
    (by decide) (by decide) (by decide) (by decide)


/-- C7.  For every text node scanned: a node whose cleaned text has no
price token yields no record, and any record the node yields takes the
last matching price token of the node as its sale price. -/
theorem last_price_token_is_sale (pt : String) (pd : Option String)
    (su : String) (seen : List NameKey) (node : TextNode) :
    (priceFindall (clean_text node.text) = [] →
      (stepNode pt pd su seen node).1 = none) ∧
    (∀ r, (stepNode pt pd su seen node).1 = some r →
      (priceFindall (clean_text node.text)).getLast?.map String.mk =
        some r.sale_price) := by
  constructor
  · intro h
    have h0 : (priceFindall (clean_text node.text)).getLast? = none := by
      rw [h]
      rfl
    simp [stepNode, h0]
  · intro r hr
    cases hl : (priceFindall (clean_text node.text)).getLast? with
    | none => simp [stepNode, hl] at hr
    | some sp =>
      simp only [stepNode, hl] at hr
      split at hr
      · simp at hr
      · simp only [Option.some.injEq] at hr
        subst hr
        rfl

/-- C7 witness: a node whose text has no price token produces nothing;
for `Item $5 now $4.99` the sale price of the produced record is the
last token, `$4.99`. -/
theorem last_price_token_is_sale_witness :
    (stepNode "t" none "u" [] ⟨"no price here", none, none, none⟩).1 =
      none ∧
    (priceFindall
        (clean_text
          (⟨"Item $5 now $4.99", some "Gadget", none, none⟩ :
            TextNode).text)).getLast?.map String.mk =
      some (⟨"t", "", "Gadget", "$4.99", "", "", "u"⟩ : SaleRec).sale_price := by
  constructor
  · exact (last_price_token_is_sale "t" none "u" []
      ⟨"no price here", none, none, none⟩).1 (by decide)
  · exact (last_price_token_is_sale "t" none "u" []
      ⟨"Item $5 now $4.99", some "Gadget", none, none⟩).2
      ⟨"t", "", "Gadget", "$4.99", "", "", "u"⟩ (by decide)

/-- One scan step either leaves the state unchanged and emits nothing,
or emits a record with a fresh dedup key and a non-empty name, pushing
its key onto the seen set. -/
lemma stepNode_cases (pt : String) (pd : Option String) (su : String)
    (seen : List NameKey) (node : TextNode) :
    (stepNode pt pd su seen node = (none, seen)) ∨
    (∃ r, stepNode pt pd su seen node = (some r, recKey r :: seen) ∧
      recKey r ∉ seen ∧ r.product_name ≠ "") := by
  cases hl : (priceFindall (clean_text node.text)).getLast? with
  | none =>
    left
    simp [stepNode, hl]
  | some sp =>
    by_cases hcond : resolveName node = "" ∨
        (pyLower (resolveName node), String.mk sp) ∈ seen
    · left
      simp only [stepNode, hl]
      rw [if_pos hcond]
    · right
      push_neg at hcond
      refine ⟨mkSaleRec pt pd su (resolveName node) (String.mk sp)
        (instantOf (clean_text node.text)), ?_, ?_, ?_⟩
      · simp only [stepNode, hl]
        rw [if_neg]
        · rfl
        · push_neg
          exact hcond
      · exact hcond.2
      · exact hcond.1

/-- The scan-loop invariant: all emitted records have pairwise distinct
dedup keys, none of which was already in the seen set, and every
emitted record has a non-empty name. -/
lemma extractAux_invariant (pt : String) (pd : Option String)
    (su : String) :
    ∀ (nodes : List TextNode) (seen : List NameKey),
      ((extractAux pt pd su seen nodes).map recKey).Nodup ∧
      ∀ r ∈ extractAux pt pd su seen nodes,
        r.product_name ≠ "" ∧ recKey r ∉ seen := by
  intro nodes
  induction nodes with
  | nil =>
    intro seen
    simp [extractAux]
  | cons n rest ih =>
    intro seen
    rcases stepNode_cases pt pd su seen n with heq | ⟨r, heq, hnot, hname⟩
    · simp only [extractAux, heq]
      exact ih seen
    · simp only [extractAux, heq]
      obtain ⟨ihnd, ihmem⟩ := ih (recKey r :: seen)
      refine ⟨?_, ?_⟩
      · simp only [List.map_cons, List.nodup_cons]
        refine ⟨?_, ihnd⟩
        intro hmem
        rcases List.mem_map.mp hmem with ⟨r0, hr0, hkey⟩
        exact (ihmem r0 hr0).2 (hkey ▸ List.mem_cons_self _ _)
      · intro r0 hr0
        rcases List.mem_cons.mp hr0 with rfl | hr0
        · exact ⟨hname, hnot⟩
        · exact ⟨(ihmem r0 hr0).1,
            fun hs => (ihmem r0 hr0).2 (List.mem_cons_of_mem _ hs)⟩

/-- C8.  Within one document scan the emitted records have pairwise
distinct `(lowercased name, sale price)` keys — a repeated key is
dropped, so identical occurrences yield one record — and every emitted
record has a non-empty product name. -/
theorem dedup_and_nonempty_names (su pt : String) (pd : Option String)
    (nodes : List TextNode) :
    ((extract_items_from_post su pt pd nodes).map recKey).Nodup ∧
    ∀ r ∈ extract_items_from_post su pt pd nodes,
      r.product_name ≠ "" := by
  have h := extractAux_invariant pt pd su
    (nodes.filter (fun n => hasPriceL n.text.toList)) []
  exact ⟨h.1, fun r hr => (h.2 r hr).1⟩

/-- C8 witness: two identical occurrences of `Widget $9.99` in one scan
yield exactly one record, whose name is non-empty. -/
theorem dedup_and_nonempty_names_witness :
    extract_items_from_post "u" "t" none
      [⟨"Widget $9.99", some "Widget", none, none⟩,
       ⟨"Widget $9.99", some "Widget", none, none⟩] =
      [⟨"t", "", "Widget", "$9.99", "", "", "u"⟩] ∧
    (⟨"t", "", "Widget", "$9.99", "", "", "u"⟩ : SaleRec).product_name ≠
      "" := by
  constructor
  · decide
  · exact (dedup_and_nonempty_names "u" "t" none
      [⟨"Widget $9.99", some "Widget", none, none⟩,
       ⟨"Widget $9.99", some "Widget", none, none⟩]).2
      ⟨"t", "", "Widget", "$9.99", "", "", "u"⟩ (by decide)

end Costco
